import Mathlib

/-!
Verification of pretty-table-explorer (Rust) against its natural-language
specification.  The Rust sources are shallowly embedded: strings are lists of
characters, `lasso::Rodeo` is modelled as an insertion-ordered list of keys,
machine integers are `Nat`/`Int` (Rust's saturating `usize` subtraction is
`Nat` subtraction), and fallible operations return `Option`.
-/

namespace PTE

/-- Cell/line contents: a string as a list of characters. -/
abbrev Str := List Char

/-- Mirrors Rust `char::is_whitespace` on the characters that occur here. -/
def isWS (c : Char) : Bool := c.isWhitespace

/-- Mirrors Rust `str::trim`: drop whitespace from both ends. -/
def rustTrim (s : Str) : Str :=
  ((s.dropWhile isWS).reverse.dropWhile isWS).reverse

/-- Mirrors Rust `str::split(sep)`: splitting an empty string yields `[""]`. -/
def splitChar (sep : Char) : Str → List Str
  | [] => [[]]
  | a :: rest =>
    if a = sep then [] :: splitChar sep rest
    else
      match splitChar sep rest with
      | [] => [[a]]
      | h :: t => (a :: h) :: t

/-- `leadMatch p s` holds when `p` matches the front of `s` character by
character. -/
def leadMatch : Str → Str → Bool
  | [], _ => true
  | _ :: _, [] => false
  | a :: as, b :: bs => a = b && leadMatch as bs

/-- Mirrors Rust `str::contains(pat)`: substring occurrence. -/
def hasSub (s pat : Str) : Bool :=
  match s with
  | [] => pat.isEmpty
  | _ :: t => leadMatch pat s || hasSub t pat

/-- Rust `lines()` removes one trailing `\r` from each produced line. -/
def stripCR (l : Str) : Str :=
  match l.getLast? with
  | some '\r' => l.dropLast
  | _ => l

/-- Mirrors Rust `str::lines`: split on `\n`, no final empty line for a
trailing newline, and a trailing `\r` stripped per line. -/
def rustLines (s : Str) : List Str :=
  if s = [] then []
  else
    let parts := splitChar '\n' s
    let parts := if parts.getLast? = some [] then parts.dropLast else parts
    parts.map stripCR

/-- Mirrors Rust `str::to_lowercase` for the ASCII data handled here. -/
def lowerStr (s : Str) : Str := s.map Char.toLower

/-!  ## Interner (src/parser.rs uses `lasso::Rodeo`)

Modelled from the spec: `lasso::Rodeo` is an external crate, absent from the
sources.  Per spec section 4.1 it is an idempotent string-to-handle map:
`get_or_intern` returns the existing handle when the content was seen before
and otherwise appends a fresh entry; `resolve` looks a handle up.  The model
is the insertion-ordered key list, a handle being a position in it. -/
def get_or_intern : List Str → Str → List Str × Nat
  | [], s => ([s], 0)
  | t :: ts, s =>
    if t = s then (t :: ts, 0)
    else
      let p := get_or_intern ts s
      (t :: p.1, p.2 + 1)

/-- Mirrors `Rodeo::resolve` / `TableData::resolve` (src/parser.rs lines
26-29): look the handle up in the interner. -/
def resolve (tbl : List Str) (h : Nat) : Str := tbl.getD h []

/-- Mirrors `TableData` (src/parser.rs lines 4-11): headers, rows of interned
handles, and the owning interner. -/
structure TD where
  headers : List Str
  rows : List (List Nat)
  interner : List Str
deriving DecidableEq

/-!  ## psql parsing (src/parser.rs)  -/

/-- The `"---"` pattern the separator line must contain. -/
def threeDashes : Str := ['-', '-', '-']

/-- The `"row"` pattern of footer lines. -/
def rowWord : Str := ['r', 'o', 'w']

/-- Footer test on a trimmed line, mirroring
`trimmed.starts_with('(') && trimmed.ends_with(')') && trimmed.contains("row")`
(src/parser.rs lines 131, 198). -/
def isFooterLine (t : Str) : Bool :=
  t.head? = some '(' && t.getLast? = some ')' && hasSub t rowWord

/-- Mirrors `parse_psql_line` (src/parser.rs lines 122-139): skip empty and
footer lines, otherwise split on `|` and trim each cell.  The unused
`column_count` argument of the source is dropped. -/
def parse_psql_line (line : Str) : Option (List Str) :=
  let t := rustTrim line
  if t = [] then none
  else if isFooterLine t then none
  else some ((splitChar '|' line).map rustTrim)

/-- Mirrors `line_iter.find(|(_, line)| !line.trim().is_empty())`: index and
content of the first line whose trim is non-empty. -/
def firstNonEmpty (i : Nat) : List Str → Option (Nat × Str)
  | [] => none
  | l :: ls =>
    if rustTrim l = [] then firstNonEmpty (i + 1) ls
    else some (i, l)

/-- Header-line split: cells of the `|`-separated header, trimmed
(src/parser.rs lines 88-91). -/
def splitHeaders (l : Str) : List Str := (splitChar '|' l).map rustTrim

/-- Mirrors `parse_psql_header` (src/parser.rs lines 78-112). -/
def parse_psql_header (lines : List Str) : Option (List Str × Nat) :=
  if lines = [] then none
  else
    match firstNonEmpty 0 lines with
    | none => none
    | some (headerIdx, headerLine) =>
      let headers := splitHeaders headerLine
      if headers.isEmpty || headers.all (· = []) then none
      else if lines.length ≤ headerIdx + 1 then none
      else if hasSub (lines.getD (headerIdx + 1) []) threeDashes then
        some (headers, headerIdx + 2)
      else none

/-- Interning one data row's cells left to right, threading the interner
(src/parser.rs lines 203-206). -/
def internCells (intr : List Str) : List Str → List Str × List Nat
  | [] => (intr, [])
  | c :: cs =>
    let p := get_or_intern intr (rustTrim c)
    let q := internCells p.1 cs
    (q.1, p.2 :: q.2)

/-- The data-row loop of `parse_psql` (src/parser.rs lines 189-209): skip
blank lines, stop at the footer, split and intern every other line. -/
def parseDataRows (intr : List Str) (rows : List (List Nat)) :
    List Str → List Str × List (List Nat)
  | [] => (intr, rows)
  | line :: rest =>
    let t := rustTrim line
    if t = [] then parseDataRows intr rows rest
    else if isFooterLine t then (intr, rows)
    else
      let p := internCells intr (splitChar '|' line)
      parseDataRows p.1 (rows ++ [p.2]) rest

/-- Mirrors `parse_psql` (src/parser.rs lines 153-216). -/
def parse_psql (input : Str) : Option TD :=
  let lines := rustLines input
  if lines = [] then none
  else
    match firstNonEmpty 0 lines with
    | none => none
    | some (headerIdx, headerLine) =>
      let headers := splitHeaders headerLine
      if headers.isEmpty || headers.all (· = []) then none
      else if lines.length ≤ headerIdx + 1 then none
      else if hasSub (lines.getD (headerIdx + 1) []) threeDashes then
        let p := parseDataRows [] [] (lines.drop (headerIdx + 2))
        some ⟨headers, p.2, p.1⟩
      else none

/-!  ## TableData::clone (src/parser.rs lines 39-60)  -/

/-- Re-interning one cloned row: each handle is resolved in the original
interner and re-interned into the fresh one. -/
def internRow (orig intr : List Str) : List Nat → List Str × List Nat
  | [] => (intr, [])
  | c :: cs =>
    let p := get_or_intern intr (resolve orig c)
    let q := internRow orig p.1 cs
    (q.1, p.2 :: q.2)

/-- Re-interning all rows in order, threading the fresh interner. -/
def internRowList (orig intr : List Str) : List (List Nat) → List Str × List (List Nat)
  | [] => (intr, [])
  | r :: rs =>
    let p := internRow orig intr r
    let q := internRowList orig p.1 rs
    (q.1, p.2 :: q.2)

/-- Mirrors `impl Clone for TableData` (src/parser.rs lines 39-60): build a
fresh interner holding only the strings the rows reference, remapping every
handle. -/
def cloneTD (t : TD) : TD :=
  let p := internRowList t.interner [] t.rows
  ⟨t.headers, p.2, p.1⟩

/-!  ## Render data: filtering and column widths (src/render.rs)  -/

/-- Resolve a row of handles to its strings (src/parser.rs `resolve_row`). -/
def resolveRow (intr : List Str) (row : List Nat) : List Str :=
  row.map (resolve intr)

/-- The filtered display rows of `build_pane_render_data` (src/render.rs
lines 72-86): with an empty filter all rows, otherwise the rows where some
cell's lowercasing contains the lowercased filter text. -/
def displayRows (t : TD) (filterText : Str) : List (List Str) :=
  let rowsStr := t.rows.map (resolveRow t.interner)
  if filterText = [] then rowsStr
  else
    let filterLower := lowerStr filterText
    rowsStr.filter (fun row => row.any (fun cell => hasSub (lowerStr cell) filterLower))

/-- One row's pass of the width loop (src/render.rs lines 28-34): widths and
cells are walked in step; positions `i < num_cols` take the max, cells past
the width vector are ignored, and widths past the row keep their value. -/
def updRow : List Nat → List Str → List Nat
  | [], _ => []
  | ws, [] => ws
  | w :: ws, c :: cs => Nat.max w c.length :: updRow ws cs

/-- Mirrors `calculate_auto_widths` (src/render.rs lines 18-38): start from
zeros, raise each column to its header width, then to every cell width row
by row, and finally add 1 for padding.  The accumulation is in `usize`
(unbounded here), but the source's final `(*w + 1) as u16` cast (line 37)
truncates each result modulo 2^16. -/
def calculate_auto_widths (headers : List Str) (rows : List (List Str)) : List Nat :=
  (rows.foldl updRow (updRow (List.replicate headers.length 0) headers)).map
    (fun w => (w + 1) % 65536)

/-- The length of the cell of `row` at column `i`, `0` when the row is
shorter. -/
def cellLen (i : Nat) (row : List Str) : Nat :=
  match row.get? i with
  | some c => c.length
  | none => 0

/-- True maximum cell width of column `i` over a list of rows. -/
def trueColMax (i : Nat) : List (List Str) → Nat
  | [] => 0
  | row :: rest => Nat.max (cellLen i row) (trueColMax i rest)

/-!  ## Streaming ingestion (src/streaming.rs)

The channel is the list of batches in send order; a row is its list of cell
strings.  The background thread of `from_stdin` is run to completion with no
cancellation, which is the setting of the streaming-completeness claim. -/

/-- A parsed data row. -/
abbrev Row := List Str

/-- The batch loop of the background thread (src/streaming.rs lines 106-144):
rows accumulate into `acc`; a batch is sent whenever it reaches `BATCH_SIZE`
(1000) rows, and the final partial batch is flushed at end of stream. -/
def sendBatches (batchSize : Nat) (acc : List Row) : List Row → List (List Row)
  | [] => if acc = [] then [] else [acc]
  | r :: rs =>
    let acc' := acc ++ [r]
    if batchSize ≤ acc'.length then acc' :: sendBatches batchSize [] rs
    else sendBatches batchSize acc' rs

/-- Mirrors `StreamingParser::from_stdin` (src/streaming.rs lines 47-154) on a
finite input with no cancellation: up to 20 lines are read synchronously for
the header; the data rows among them form the initial batch (sent when
non-empty, lines 90-103), and the background thread batches the rest. -/
def streamBatches (lines : List Str) : List (List Row) :=
  match parse_psql_header (lines.take 20) with
  | none => []
  | some (_, dataStart) =>
    let initialBatch := ((lines.take 20).drop dataStart).filterMap parse_psql_line
    let rest := (lines.drop 20).filterMap parse_psql_line
    (if initialBatch = [] then [] else [initialBatch]) ++ sendBatches 1000 [] rest

/-- Mirrors the header phase of `from_stdin` alone: `none` models the
`Ok(None)` "not this format" return (src/streaming.rs lines 70-73). -/
def from_stdin_start (allLines : List Str) : Option (List Str) :=
  (parse_psql_header (allLines.take 20)).map (·.1)

/-- The drain loop of `try_recv_batch` (src/streaming.rs lines 160-180):
while fewer than `maxRows` rows are gathered, receive a batch and push its
rows until the cap; the rest of a received batch is not requeued. -/
def tryRecvAux (maxRows : Nat) (acc : List Row) : List (List Row) → List Row × List (List Row)
  | [] => (acc, [])
  | b :: rest =>
    if acc.length < maxRows then
      tryRecvAux maxRows (acc ++ b.take (maxRows - acc.length)) rest
    else (acc, b :: rest)

/-- Mirrors `StreamingParser::try_recv_batch` (src/streaming.rs lines
160-180): returns the delivered rows and the channel contents left behind. -/
def try_recv_batch (chan : List (List Row)) (maxRows : Nat) : List Row × List (List Row) :=
  tryRecvAux maxRows [] chan

/-!  ## Column window (src/render.rs `render_table_pane`, lines 106-271)  -/

/-- State of the greedy column-fitting pass: the chosen data-column indices,
the accumulated width, the visible index of the last included column, and the
truncated width of the last column when it only partially fits. -/
structure FitState where
  renderCols : List Nat
  cumulative : Nat
  lastIdx : Nat
  truncWidth : Option Nat
deriving DecidableEq

/-- Width lookup `pane.widths.get(data_idx)` with the `_ => 10` fallback
(src/render.rs lines 151-154). -/
def widthAt (widths : List Nat) (i : Nat) : Nat := widths.getD i 10

/-- One greedy fitting pass (src/render.rs lines 145-186 and again 199-234):
a fully fitting column is appended (first column without separator, later
ones with one); a first column too wide is included truncated to the whole
space; a later partially fitting column is included when at least 3
characters remain; otherwise the loop breaks. -/
def greedyPass (widths : List Nat) (avail : Nat) : List (Nat × Nat) → FitState → FitState
  | [], st => st
  | (visIdx, dataIdx) :: rest, st =>
    let colWidth := widthAt widths dataIdx
    let widthNeeded := if st.renderCols.isEmpty then colWidth else colWidth + 1
    if st.cumulative + widthNeeded ≤ avail then
      greedyPass widths avail rest
        ⟨st.renderCols ++ [dataIdx], st.cumulative + widthNeeded, visIdx, st.truncWidth⟩
    else if st.renderCols.isEmpty then
      ⟨st.renderCols ++ [dataIdx], st.cumulative, visIdx, some avail⟩
    else
      let remaining := avail - (st.cumulative + 1)
      if 3 ≤ remaining then ⟨st.renderCols ++ [dataIdx], st.cumulative, visIdx, some remaining⟩
      else st

/-- The loop's starting state (src/render.rs lines 140-143). -/
def initFit (scrollOffset : Nat) : FitState := ⟨[], 0, scrollOffset, none⟩

/-- The two-pass column-window computation of `render_table_pane`
(src/render.rs lines 115-238): chrome is subtracted from the area width, a
right indicator is speculatively reserved, and when no right overflow results
the pass is re-run with the reclaimed space.  Returns the final fit state and
the left/right overflow flags. -/
def computeRenderCols (visibleCols widths : List Nat) (scrollOffset areaWidth : Nat) :
    FitState × Bool × Bool :=
  let hasLeft := decide (0 < scrollOffset)
  let base := areaWidth - 5
  let widthMinusLeft := if hasLeft then base - 2 else base
  let widthRightReserved := widthMinusLeft - 2
  let pairs := (visibleCols.enum).drop scrollOffset
  let st1 := greedyPass widths widthRightReserved pairs (initFit scrollOffset)
  let hasRight1 := decide (st1.lastIdx + 1 < visibleCols.length)
  let st2 :=
    if !hasRight1 && widthRightReserved < widthMinusLeft then
      greedyPass widths widthMinusLeft pairs (initFit scrollOffset)
    else st1
  let hasRight := decide (st2.lastIdx + 1 < visibleCols.length)
  (st2, hasLeft, hasRight)

/-- Mirrors the selected-column mapping (src/render.rs lines 245-271):
window-relative position clamped to the rendered columns, shifted past the
left indicator when present, then clamped to the last data-column cell. -/
def render_col_position (selVisCol scrollOffset numRendered : Nat) (hasLeft : Bool) : Nat :=
  let d := Nat.min (selVisCol - scrollOffset) (numRendered - 1)
  let p := if hasLeft then d + 1 else d
  let maxPos := if hasLeft then numRendered else numRendered - 1
  Nat.min p maxPos

/-- The full pipeline from pane state to the cell index handed to
`table_state.select_column` (src/render.rs line 366), with the overflow
flags. -/
def selectedRenderCell (visibleCols widths : List Nat) (off areaW selVisCol : Nat) :
    Nat × Bool × Bool :=
  let r := computeRenderCols visibleCols widths off areaW
  (render_col_position selVisCol off r.1.renderCols.length r.2.1, r.2.1, r.2.2)

/-!  ## Column configuration (src/column.rs)  -/

/-- Mirrors `ColumnState` (src/column.rs lines 3-8). -/
structure ColState where
  widthOverride : Option Nat
  visible : Bool
deriving DecidableEq

/-- Mirrors `ColumnConfig` (src/column.rs lines 21-25). -/
structure ColumnConfig where
  columns : List ColState
  displayOrder : List Nat
deriving DecidableEq

/-- Update the element at one position, the identity out of range (the effect
of a guarded `get_mut`/index update on a `Vec`). -/
def updateAt {α : Type} (f : α → α) : Nat → List α → List α
  | _, [] => []
  | 0, a :: as => f a :: as
  | n + 1, a :: as => a :: updateAt f n as

/-- Mirrors `Vec::swap` under the bounds guard of `swap_display`. -/
def listSwap (l : List Nat) (i j : Nat) : List Nat :=
  match l.get? i, l.get? j with
  | some a, some b => (l.set i b).set j a
  | _, _ => l

/-- Mirrors `ColumnConfig::new` (src/column.rs lines 29-34). -/
def ColumnConfig.new (numColumns : Nat) : ColumnConfig :=
  ⟨List.replicate numColumns ⟨none, true⟩, List.range numColumns⟩

/-- Mirrors `ColumnConfig::reset` (src/column.rs lines 37-43). -/
def ColumnConfig.reset (c : ColumnConfig) : ColumnConfig :=
  ⟨c.columns.map (fun _ => ⟨none, true⟩), List.range c.columns.length⟩

/-- Mirrors `ColumnConfig::hide` (src/column.rs lines 46-50). -/
def ColumnConfig.hide (c : ColumnConfig) (col : Nat) : ColumnConfig :=
  if col < c.columns.length then
    ⟨updateAt (fun st => ⟨st.widthOverride, false⟩) col c.columns, c.displayOrder⟩
  else c

/-- Mirrors `ColumnConfig::show_all` (src/column.rs lines 53-57). -/
def ColumnConfig.show_all (c : ColumnConfig) : ColumnConfig :=
  ⟨c.columns.map (fun st => ⟨st.widthOverride, true⟩), c.displayOrder⟩

/-- Mirrors `ColumnConfig::adjust_width` (src/column.rs lines 77-86): start
from the override or the capped auto width, add the delta, clamp to
`[3, 100]`. -/
def ColumnConfig.adjust_width (c : ColumnConfig) (col : Nat) (delta : Int) (autoWidth : Nat) :
    ColumnConfig :=
  if col < c.columns.length then
    ⟨updateAt (fun st =>
        let base : Nat := st.widthOverride.getD (Nat.min autoWidth 100)
        let v : Int := (base : Int) + delta
        let clamped : Int := if v < 3 then 3 else if 100 < v then 100 else v
        ⟨some clamped.toNat, st.visible⟩) col c.columns,
      c.displayOrder⟩
  else c

/-- Mirrors `ColumnConfig::swap_display` (src/column.rs lines 105-109). -/
def ColumnConfig.swap_display (c : ColumnConfig) (p1 p2 : Nat) : ColumnConfig :=
  if p1 < c.displayOrder.length && p2 < c.displayOrder.length then
    ⟨c.columns, listSwap c.displayOrder p1 p2⟩
  else c

/-- The operations a user can drive a `ColumnConfig` through. -/
inductive ColOp where
  | adjust (col : Nat) (delta : Int) (autoWidth : Nat)
  | hideCol (col : Nat)
  | showAll
  | resetCfg
  | swapDisp (p1 p2 : Nat)

/-- Apply one operation. -/
def applyOp (c : ColumnConfig) : ColOp → ColumnConfig
  | .adjust col delta autoWidth => c.adjust_width col delta autoWidth
  | .hideCol col => c.hide col
  | .showAll => c.show_all
  | .resetCfg => c.reset
  | .swapDisp p1 p2 => c.swap_display p1 p2

/-- Apply a sequence of operations left to right. -/
def applyOps (c : ColumnConfig) (ops : List ColOp) : ColumnConfig :=
  ops.foldl applyOp c

/-- A column state's override, when set, lies in `[3, 100]`. -/
def widthOk (st : ColState) : Bool :=
  match st.widthOverride with
  | none => true
  | some w => 3 ≤ w && w ≤ 100

/-- Every set override of the configuration lies in `[3, 100]`. -/
def widthInv (c : ColumnConfig) : Bool := c.columns.all widthOk

/-!  ## Viewport window

Modelled from the spec: the viewport-windowed row materialization (the
two-argument `build_pane_render_data` exercised by tests/scroll_tests.rs and
feeding `PaneRenderData.viewport_row_offset`, src/state.rs line 61) is absent
from src/src — the render.rs present is an earlier iteration that
materializes every filtered row.  Spec section 4.6: buffer = 2 × viewport
height, `start = max(0, selected − buffer)`, `end = min(filtered_count,
selected + buffer)`, materializing rows in `[start, end)`. -/
def viewport_window (selected h n : Nat) : Nat × Nat :=
  (selected - 2 * h, Nat.min (selected + 2 * h) n)

/-- The claim's notion of a valid header/separator pair at the start of the
line list: a first non-empty line whose `|`-split is not all empty, followed
by a line containing `"---"`. -/
def hasValidPair (lines : List Str) : Bool :=
  match firstNonEmpty 0 lines with
  | none => false
  | some (i, l) =>
    let hs := splitHeaders l
    if hs.isEmpty || hs.all (· = []) then false
    else if lines.length ≤ i + 1 then false
    else hasSub (lines.getD (i + 1) []) threeDashes

/-!  # Interner lemmas  -/

theorem gi_resolve (tbl : List Str) (s : Str) :
    resolve (get_or_intern tbl s).1 (get_or_intern tbl s).2 = s := by
  induction tbl with
  | nil => simp [get_or_intern, resolve]
  | cons t ts ih =>
    by_cases h : t = s
    · simp [get_or_intern, h, resolve]
    · simpa [get_or_intern, h, resolve] using ih

theorem gi_idem (tbl : List Str) (s : Str) :
    get_or_intern (get_or_intern tbl s).1 s = get_or_intern tbl s := by
  induction tbl with
  | nil => simp [get_or_intern]
  | cons t ts ih =>
    by_cases h : t = s
    · simp [get_or_intern, h]
    · simp only [get_or_intern, h, if_false]
      simp [get_or_intern, h, ih]

theorem gi_fst_cases (tbl : List Str) (s : Str) :
    (get_or_intern tbl s).1 = tbl ∨ (get_or_intern tbl s).1 = tbl ++ [s] := by
  induction tbl with
  | nil => simp [get_or_intern]
  | cons t ts ih =>
    by_cases h : t = s
    · simp [get_or_intern, h]
    · rcases ih with ih | ih <;> simp [get_or_intern, h, ih]

theorem gi_lt (tbl : List Str) (s : Str) :
    (get_or_intern tbl s).2 < (get_or_intern tbl s).1.length := by
  induction tbl with
  | nil => simp [get_or_intern]
  | cons t ts ih =>
    by_cases h : t = s
    · simp [get_or_intern, h]
    · simpa [get_or_intern, h, Nat.succ_lt_succ_iff] using ih

theorem gi_mem (tbl : List Str) (s x : Str) :
    x ∈ (get_or_intern tbl s).1 ↔ x ∈ tbl ∨ x = s := by
  rcases gi_fst_cases tbl s with h | h
  · rw [h]
    constructor
    · exact fun hx => Or.inl hx
    · rintro (hx | rfl)
      · exact hx
      · -- the first-component-unchanged case only arises when `s ∈ tbl`
        induction tbl with
        | nil => simp [get_or_intern] at h
        | cons t ts ih =>
          by_cases ht : t = x
          · simp [ht]
          · have : (get_or_intern ts x).1 = ts := by
              by_cases h2 : t = x
              · exact absurd h2 ht
              · simp only [get_or_intern, h2, if_false, List.cons.injEq] at h
                exact h.2
            simpa using Or.inr (ih this)
  · rw [h]; simp [or_comm, eq_comm]

/-- C7: resolving the handle obtained by interning a string yields that
string back, and interning the same content again returns the same handle
(and leaves the interner unchanged). -/
theorem interner_round_trip (tbl : List Str) (s : Str) :
    resolve (get_or_intern tbl s).1 (get_or_intern tbl s).2 = s ∧
    get_or_intern (get_or_intern tbl s).1 s = get_or_intern tbl s :=
  ⟨gi_resolve tbl s, gi_idem tbl s⟩

/-!  # Streaming: the batch-tail row loss (C1)  -/

/-- C1: counter-evaluation of the streaming pipeline.  For the finite input
`a|b` / `---+---` / `1|x` / `2|y` (R = 2 data rows, no cancellation), the
producer sends one batch holding both rows; a `try_recv_batch(1)` call
returns only the first row and leaves the channel empty — the second row of
the received batch is dropped, so draining until completion delivers 1 row,
not R = 2. -/
theorem streaming_tail_of_batch_dropped :
    streamBatches [("a|b").toList, ("---+---").toList, ("1|x").toList, ("2|y").toList]
      = [[[['1'], ['x']], [['2'], ['y']]]] ∧
    try_recv_batch [[[['1'], ['x']], [['2'], ['y']]]] 1 = ([[['1'], ['x']]], []) ∧
    try_recv_batch [] 1 = ([], []) := by
  refine ⟨by decide, by decide, by decide⟩

/-!  # Viewport window (C2)  -/

/-- C2 counterexample: at viewport height h = 0 with k = 0 and n = 1 the
claimed `start ≤ k < end` fails — the window is `[0, 0)` and the selected
in-range row 0 is not inside it. -/
theorem viewport_window_h0_misses_selection :
    (0 : Nat) < 1 ∧ (viewport_window 0 0 1).1 = 0 ∧ (viewport_window 0 0 1).2 = 0 ∧
    ¬ 0 < (viewport_window 0 0 1).2 := by decide

/-- C2 amended: for every selected index k, filtered count n, and viewport
height h ≥ 1, the window is `[k − 2h, min (k + 2h) n)`; its length is at
most 4h, it ends within n, and it contains k whenever k < n. -/
theorem viewport_window_bounds (k h n : Nat) (hh : 1 ≤ h) :
    (viewport_window k h n).1 = k - 2 * h ∧
    (viewport_window k h n).2 = Nat.min (k + 2 * h) n ∧
    (viewport_window k h n).2 - (viewport_window k h n).1 ≤ 4 * h ∧
    (viewport_window k h n).2 ≤ n ∧
    (k < n → (viewport_window k h n).1 ≤ k ∧ k < (viewport_window k h n).2) := by
  refine ⟨rfl, rfl, ?_, ?_, ?_⟩ <;>
    simp only [viewport_window, Nat.min_def] <;> split <;> omega

/-- Witness for `viewport_window_bounds` at k = 5000, h = 25, n = 10000. -/
theorem viewport_window_bounds_witness :
    (viewport_window 5000 25 10000).1 = 5000 - 2 * 25 ∧
    (viewport_window 5000 25 10000).2 = Nat.min (5000 + 2 * 25) 10000 ∧
    (viewport_window 5000 25 10000).2 - (viewport_window 5000 25 10000).1 ≤ 4 * 25 ∧
    (viewport_window 5000 25 10000).2 ≤ 10000 ∧
    (5000 < 10000 →
      (viewport_window 5000 25 10000).1 ≤ 5000 ∧ 5000 < (viewport_window 5000 25 10000).2) :=
  viewport_window_bounds 5000 25 10000 (by decide)

/-!  # Example scenario (C4)  -/

/-- The parsed store of the amended example scenario. -/
def scenarioTD : TD :=
  ⟨[['a'], ['b']], [[0, 1], [2, 3], [4, 5]],
    [['1'], ['x'], ['2'], ['y'], ['3'], ['z']]⟩

/-- C4 counterexample: the claimed input's separator line `--+--` has no run
of three dashes, so `parse_psql` rejects the whole input instead of
succeeding with 2 columns and 3 rows. -/
theorem example_scenario_separator_rejected :
    parse_psql (("a|b\n--+--\n1|x\n2|y\n3|z\n(3 rows)").toList) = none := by decide

/-- C4 amended: with a separator containing three consecutive dashes
(`---+---`), parsing succeeds with exactly 2 columns and 3 rows, the footer
is absent from the rows, and the text filter "y" yields exactly 1 displayed
row. -/
theorem example_scenario_parses :
    parse_psql (("a|b\n---+---\n1|x\n2|y\n3|z\n(3 rows)").toList) = some scenarioTD ∧
    scenarioTD.headers.length = 2 ∧
    scenarioTD.rows.length = 3 ∧
    scenarioTD.rows.map (resolveRow scenarioTD.interner)
      = [[['1'], ['x']], [['2'], ['y']], [['3'], ['z']]] ∧
    displayRows scenarioTD ['y'] = [[['2'], ['y']]] := by
  refine ⟨by decide, by decide, by decide, by decide, by decide⟩

/-!  # Width calculation (C3)  -/

theorem cellLen_nil (i : Nat) : cellLen i [] = 0 := by
  simp [cellLen]

theorem cellLen_cons_zero (c : Str) (cs : List Str) : cellLen 0 (c :: cs) = c.length := by
  simp [cellLen]

theorem cellLen_cons_succ (i : Nat) (c : Str) (cs : List Str) :
    cellLen (i + 1) (c :: cs) = cellLen i cs := by
  simp [cellLen]

theorem updRow_get? (ws : List Nat) (cs : List Str) (i : Nat) :
    (updRow ws cs).get? i = (ws.get? i).map (fun w => Nat.max w (cellLen i cs)) := by
  induction ws generalizing cs i with
  | nil => simp [updRow]
  | cons w ws ih =>
    cases cs with
    | nil =>
      cases i with
      | zero => simp [updRow, cellLen_nil]
      | succ j => simp [updRow, cellLen_nil]
    | cons c cs =>
      cases i with
      | zero => simp [updRow, cellLen_cons_zero]
      | succ j => simpa [updRow, cellLen_cons_succ] using ih cs j

theorem foldl_updRow_get? (rows : List (List Str)) (ws : List Nat) (i : Nat) :
    (rows.foldl updRow ws).get? i
      = (ws.get? i).map (fun w => Nat.max w (trueColMax i rows)) := by
  induction rows generalizing ws with
  | nil =>
    simp only [List.foldl_nil, trueColMax]
    cases h : ws.get? i <;> simp [h]
  | cons row rest ih =>
    simp only [List.foldl_cons, trueColMax]
    rw [ih, updRow_get?]
    cases h : ws.get? i <;> simp [h, Nat.max_assoc]

/-- C3 counterexample: a single column whose one cell is 65535 characters
wide.  The true maximum display width is 65535, but the source's
`(*w + 1) as u16` cast wraps `65536` to `0`: the computed width is 0, which
is neither the maximum plus 1 nor at least the maximum. -/
theorem auto_widths_wrap :
    calculate_auto_widths [['a']] [[List.replicate 65535 'a']] = [0] ∧
    Nat.max (([['a']].getD 0 []).length) (trueColMax 0 [[List.replicate 65535 'a']])
      = 65535 ∧
    (0 : Nat) ≠ 65535 + 1 ∧ (0 : Nat) < 65535 := by
  have key : ∀ big : Str, big.length = 65535 →
      calculate_auto_widths [['a']] [[big]] = [0] ∧
      Nat.max (([['a']].getD 0 []).length) (trueColMax 0 [[big]]) = 65535 := by
    intro big hlen
    have hmax : trueColMax 0 [[big]] = 65535 := by
      simp [trueColMax, cellLen, hlen]
    constructor
    · show ([[big]].foldl updRow (updRow (List.replicate 1 0) [['a']])).map
          (fun w => (w + 1) % 65536) = [0]
      have h1 : updRow (List.replicate 1 0) [['a']] = [1] := by decide
      rw [h1]
      have h2 : updRow [1] [big] = [65535] := by
        simp only [updRow, hlen]
        norm_num
      rw [List.foldl_cons, h2, List.foldl_nil]
      decide
    · rw [hmax]
      decide
  obtain ⟨k1, k2⟩ := key (List.replicate 65535 'a') (List.length_replicate 65535 'a')
  exact ⟨k1, k2, by decide, by decide⟩

/-- C3 amended: whenever the true maximum display width of column i plus the
padding of 1 fits in `u16` (is below 65536), the computed auto width of
column i equals that exact maximum plus 1 (and is in particular never less
than the maximum). -/
theorem auto_widths_exact (headers : List Str) (rows : List (List Str)) (i : Nat)
    (h : i < headers.length)
    (hfit : Nat.max (headers.getD i []).length (trueColMax i rows) + 1 < 65536) :
    (calculate_auto_widths headers rows).get? i
      = some (Nat.max (headers.getD i []).length (trueColMax i rows) + 1) := by
  obtain ⟨v, hv⟩ : ∃ v, headers.get? i = some v := by
    cases hh : headers.get? i with
    | none => exact absurd (List.get?_eq_none.mp hh) (Nat.not_le.mpr h)
    | some v => exact ⟨v, rfl⟩
  have hgetD : headers.getD i [] = v := by
    rw [List.getD_eq_getD_get?, hv]; rfl
  have hc : cellLen i headers = v.length := by
    unfold cellLen; rw [hv]
  have hrep : (List.replicate headers.length 0).get? i = some 0 := by
    simp [List.get?_eq_getElem?, List.getElem?_replicate, h]
  have hphase1 : (updRow (List.replicate headers.length 0) headers).get? i
      = some v.length := by
    rw [updRow_get?, hrep, Option.map_some', hc]
    exact congrArg some (Nat.max_eq_right (Nat.zero_le _))
  rw [hgetD] at hfit
  simp only [calculate_auto_widths, List.get?_map]
  rw [foldl_updRow_get?, hphase1, hgetD]
  simp only [Option.map_some']
  rw [Nat.mod_eq_of_lt hfit]

/-- Witness for `auto_widths_exact`: headers `a`, `bb`; one row `xyz`; column
0 gets width `max 1 3 + 1 = 4`. -/
theorem auto_widths_exact_witness :
    (calculate_auto_widths [['a'], ['b', 'b']] [[['x', 'y', 'z']]]).get? 0
      = some (Nat.max (([['a'], ['b', 'b']].getD 0 []).length)
          (trueColMax 0 [[['x', 'y', 'z']]]) + 1) :=
  auto_widths_exact [['a'], ['b', 'b']] [[['x', 'y', 'z']]] 0 (by decide) (by decide)

/-!  # Column window (C5, C6)  -/

theorem greedyPass_keeps_nonempty (w : List Nat) (a : Nat) (pairs : List (Nat × Nat))
    (st : FitState) (h : st.renderCols ≠ []) :
    (greedyPass w a pairs st).renderCols ≠ [] := by
  induction pairs generalizing st with
  | nil => exact h
  | cons p rest ih =>
    obtain ⟨visIdx, dataIdx⟩ := p
    simp only [greedyPass]
    split_ifs with h1 h2 h3 h4 h5
    all_goals try exact ih _ (by simp)
    all_goals try exact h
    all_goals simp

theorem greedyPass_start_nonempty (w : List Nat) (a off : Nat) (pairs : List (Nat × Nat))
    (h : pairs ≠ []) :
    (greedyPass w a pairs (initFit off)).renderCols ≠ [] := by
  cases pairs with
  | nil => exact absurd rfl h
  | cons p rest =>
    obtain ⟨visIdx, dataIdx⟩ := p
    simp only [greedyPass, initFit]
    split_ifs with h1 h2 h3 h4 h5
    all_goals try exact greedyPass_keeps_nonempty w a rest _ (by simp)
    all_goals simp_all

theorem computeRenderCols_nonempty (visibleCols widths : List Nat) (off areaW : Nat)
    (hoff : off < visibleCols.length) :
    (computeRenderCols visibleCols widths off areaW).1.renderCols ≠ [] := by
  have hpairs : (visibleCols.enum).drop off ≠ [] := by
    have hlen : ((visibleCols.enum).drop off).length = visibleCols.length - off := by
      simp [List.length_drop, List.enum_length]
    intro hnil
    rw [hnil] at hlen
    simp at hlen
    omega
  simp only [computeRenderCols]
  split_ifs <;> exact greedyPass_start_nonempty _ _ _ _ hpairs

theorem greedyPass_first_too_wide (w : List Nat) (a off visIdx dataIdx : Nat)
    (rest : List (Nat × Nat)) (h : a < widthAt w dataIdx) :
    greedyPass w a ((visIdx, dataIdx) :: rest) (initFit off)
      = ⟨[dataIdx], 0, visIdx, some a⟩ := by
  simp only [greedyPass, initFit, List.isEmpty_nil, if_true]
  split_ifs with h1 h2
  all_goals first
    | rfl
    | (exfalso; revert h1; simp; omega)

/-- C5: with at least one visible column, an in-range scroll offset and
available width ≥ 3, the fitted column list is non-empty; and a first column
wider than the available space is still included, truncated to that space. -/
theorem column_window_nonempty (visibleCols widths : List Nat) (off areaW : Nat)
    (hoff : off < visibleCols.length) (hw : 3 ≤ areaW) :
    (computeRenderCols visibleCols widths off areaW).1.renderCols ≠ [] ∧
    (∀ avail visIdx dataIdx rest, avail < widthAt widths dataIdx →
      greedyPass widths avail ((visIdx, dataIdx) :: rest) (initFit off)
        = ⟨[dataIdx], 0, visIdx, some avail⟩) :=
  ⟨computeRenderCols_nonempty visibleCols widths off areaW hoff,
    fun avail visIdx dataIdx rest h =>
      greedyPass_first_too_wide widths avail off visIdx dataIdx rest h⟩

/-- Witness for `column_window_nonempty`: one visible column of width 7,
scroll offset 0, area width 3. -/
theorem column_window_nonempty_witness :
    (computeRenderCols [0] [7] 0 3).1.renderCols ≠ [] ∧
    (∀ avail visIdx dataIdx rest, avail < widthAt [7] dataIdx →
      greedyPass [7] avail ((visIdx, dataIdx) :: rest) (initFit 0)
        = ⟨[dataIdx], 0, visIdx, some avail⟩) :=
  column_window_nonempty [0] [7] 0 3 (by decide) (by decide)

theorem render_col_position_spec (sel off m : Nat) (hL : Bool) (hm : 1 ≤ m) :
    (hL = true →
      render_col_position sel off m hL = Nat.min (sel - off) (m - 1) + 1 ∧
      1 ≤ render_col_position sel off m hL ∧ render_col_position sel off m hL ≤ m) ∧
    (hL = false →
      render_col_position sel off m hL = Nat.min (sel - off) (m - 1) ∧
      render_col_position sel off m hL + 1 ≤ m) := by
  have hfalse : render_col_position sel off m false = Nat.min (sel - off) (m - 1) := by
    simp only [render_col_position, Bool.false_eq_true, if_false, Nat.min_def]
    repeat' split
    all_goals omega
  have htrue : render_col_position sel off m true = Nat.min (sel - off) (m - 1) + 1 := by
    simp only [render_col_position, if_true, Nat.min_def]
    repeat' split
    all_goals omega
  have hminle : Nat.min (sel - off) (m - 1) ≤ m - 1 := Nat.min_le_right _ _
  constructor
  · intro hx
    subst hx
    exact ⟨htrue, by omega, by rw [htrue]; omega⟩
  · intro hx
    subst hx
    exact ⟨hfalse, by rw [hfalse]; omega⟩

/-- C6 counterexample: in the pane state with no visible columns and scroll
offset 1 (left indicator present), zero data columns are rendered and the
position handed to `select_column` is 0 — the left overflow-indicator
cell. -/
theorem selection_lands_on_indicator :
    (computeRenderCols [] [] 1 40).1.renderCols = [] ∧
    (selectedRenderCell [] [] 1 40 0).2.1 = true ∧
    (selectedRenderCell [] [] 1 40 0).1 = 0 := by decide

/-- C6 amended: whenever at least one column is rendered (scroll offset in
range of the visible columns), the selected-column position lies on a data
cell — positions 1..m with a left indicator at 0, positions 0..m−1
otherwise, the right indicator lying one past the data cells — and with a
left indicator it is exactly the window-relative clamped index plus one. -/
theorem selection_maps_to_data_column (v w : List Nat) (off a sel : Nat)
    (h : off < v.length) :
    1 ≤ (computeRenderCols v w off a).1.renderCols.length ∧
    ((computeRenderCols v w off a).2.1 = true →
      render_col_position sel off (computeRenderCols v w off a).1.renderCols.length
          (computeRenderCols v w off a).2.1
        = Nat.min (sel - off) ((computeRenderCols v w off a).1.renderCols.length - 1) + 1 ∧
      1 ≤ render_col_position sel off (computeRenderCols v w off a).1.renderCols.length
          (computeRenderCols v w off a).2.1 ∧
      render_col_position sel off (computeRenderCols v w off a).1.renderCols.length
          (computeRenderCols v w off a).2.1
        ≤ (computeRenderCols v w off a).1.renderCols.length) ∧
    ((computeRenderCols v w off a).2.1 = false →
      render_col_position sel off (computeRenderCols v w off a).1.renderCols.length
          (computeRenderCols v w off a).2.1
        = Nat.min (sel - off) ((computeRenderCols v w off a).1.renderCols.length - 1) ∧
      render_col_position sel off (computeRenderCols v w off a).1.renderCols.length
          (computeRenderCols v w off a).2.1 + 1
        ≤ (computeRenderCols v w off a).1.renderCols.length) := by
  have hne := computeRenderCols_nonempty v w off a h
  have hm : 1 ≤ (computeRenderCols v w off a).1.renderCols.length := by
    cases hc : (computeRenderCols v w off a).1.renderCols with
    | nil => exact absurd hc hne
    | cons x xs => simp [hc]
  exact ⟨hm, (render_col_position_spec sel off _ _ hm).1,
    (render_col_position_spec sel off _ _ hm).2⟩

/-- Witness for `selection_maps_to_data_column`: two visible columns of
width 5, scroll offset 1, area width 30, selected visible column 1. -/
theorem selection_maps_to_data_column_witness :
    1 ≤ (computeRenderCols [0, 1] [5, 5] 1 30).1.renderCols.length ∧
    ((computeRenderCols [0, 1] [5, 5] 1 30).2.1 = true →
      render_col_position 1 1 (computeRenderCols [0, 1] [5, 5] 1 30).1.renderCols.length
          (computeRenderCols [0, 1] [5, 5] 1 30).2.1
        = Nat.min (1 - 1) ((computeRenderCols [0, 1] [5, 5] 1 30).1.renderCols.length - 1) + 1 ∧
      1 ≤ render_col_position 1 1 (computeRenderCols [0, 1] [5, 5] 1 30).1.renderCols.length
          (computeRenderCols [0, 1] [5, 5] 1 30).2.1 ∧
      render_col_position 1 1 (computeRenderCols [0, 1] [5, 5] 1 30).1.renderCols.length
          (computeRenderCols [0, 1] [5, 5] 1 30).2.1
        ≤ (computeRenderCols [0, 1] [5, 5] 1 30).1.renderCols.length) ∧
    ((computeRenderCols [0, 1] [5, 5] 1 30).2.1 = false →
      render_col_position 1 1 (computeRenderCols [0, 1] [5, 5] 1 30).1.renderCols.length
          (computeRenderCols [0, 1] [5, 5] 1 30).2.1
        = Nat.min (1 - 1) ((computeRenderCols [0, 1] [5, 5] 1 30).1.renderCols.length - 1) ∧
      render_col_position 1 1 (computeRenderCols [0, 1] [5, 5] 1 30).1.renderCols.length
          (computeRenderCols [0, 1] [5, 5] 1 30).2.1 + 1
        ≤ (computeRenderCols [0, 1] [5, 5] 1 30).1.renderCols.length) :=
  selection_maps_to_data_column [0, 1] [5, 5] 1 30 1 (by decide)

/-!  # Column configuration (C10)  -/

theorem all_updateAt {α : Type} (p : α → Bool) (f : α → α)
    (hf : ∀ x, p x = true → p (f x) = true) :
    ∀ (i : Nat) (l : List α), l.all p = true → (updateAt f i l).all p = true := by
  intro i l
  induction l generalizing i with
  | nil => intro _; simp [updateAt]
  | cons x xs ih =>
    intro hall
    simp only [List.all_cons, Bool.and_eq_true] at hall
    cases i with
    | zero => simp [updateAt, hf x hall.1, hall.2]
    | succ j => simp [updateAt, hall.1, ih j hall.2]

theorem clamp_toNat_range (v : Int) :
    3 ≤ (if v < 3 then (3 : Int) else if 100 < v then 100 else v).toNat ∧
    (if v < 3 then (3 : Int) else if 100 < v then 100 else v).toNat ≤ 100 := by
  split_ifs <;> omega

theorem widthInv_applyOp (c : ColumnConfig) (op : ColOp) (h : widthInv c = true) :
    widthInv (applyOp c op) = true := by
  cases op with
  | adjust col delta autoWidth =>
    simp only [applyOp, ColumnConfig.adjust_width]
    split
    · refine all_updateAt widthOk _ (fun st _ => ?_) col c.columns h
      simp only [widthOk, Bool.and_eq_true, decide_eq_true_eq]
      exact clamp_toNat_range _
    · exact h
  | hideCol col =>
    simp only [applyOp, ColumnConfig.hide]
    split
    · simp only [widthInv]
      exact all_updateAt widthOk (fun st => ⟨st.widthOverride, false⟩)
        (fun st hst => hst) col c.columns h
    · exact h
  | showAll =>
    simp only [applyOp, ColumnConfig.show_all, widthInv, List.all_map]
    simpa [widthInv, Function.comp, widthOk] using h
  | resetCfg =>
    simp [applyOp, ColumnConfig.reset, widthInv, List.all_map, Function.comp, widthOk]
  | swapDisp p1 p2 =>
    simp only [applyOp, ColumnConfig.swap_display]
    split
    · exact h
    · exact h

theorem widthInv_applyOps (ops : List ColOp) (c : ColumnConfig) (h : widthInv c = true) :
    widthInv (applyOps c ops) = true := by
  induction ops generalizing c with
  | nil => exact h
  | cons op rest ih => exact ih _ (widthInv_applyOp c op h)

theorem widthInv_new (n : Nat) : widthInv (ColumnConfig.new n) = true := by
  simp only [ColumnConfig.new, widthInv, List.all_eq_true]
  intro st hst
  rw [List.eq_of_mem_replicate hst]
  rfl

/-- C10: starting from any fresh configuration, every sequence of
adjust/hide/show-all/reset/swap operations keeps every set width override in
`[3, 100]`; and each indexed operation given an out-of-range column or
position is the identity. -/
theorem column_config_invariant :
    (∀ n ops, widthInv (applyOps (ColumnConfig.new n) ops) = true) ∧
    (∀ (c : ColumnConfig) (col : Nat) (delta : Int) (aw : Nat),
      c.columns.length ≤ col → c.adjust_width col delta aw = c) ∧
    (∀ (c : ColumnConfig) (col : Nat), c.columns.length ≤ col → c.hide col = c) ∧
    (∀ (c : ColumnConfig) (p1 p2 : Nat),
      c.displayOrder.length ≤ p1 ∨ c.displayOrder.length ≤ p2 →
      c.swap_display p1 p2 = c) := by
  refine ⟨fun n ops => widthInv_applyOps ops _ (widthInv_new n), ?_, ?_, ?_⟩
  · intro c col delta aw h
    simp [ColumnConfig.adjust_width, Nat.not_lt.mpr h]
  · intro c col h
    simp [ColumnConfig.hide, Nat.not_lt.mpr h]
  · intro c p1 p2 h
    have : ¬ (p1 < c.displayOrder.length ∧ p2 < c.displayOrder.length) := by omega
    simp only [ColumnConfig.swap_display]
    split
    · rename_i hcond
      simp only [Bool.and_eq_true, decide_eq_true_eq] at hcond
      exact absurd hcond this
    · rfl

/-- Witness for `column_config_invariant`: a concrete operation sequence on a
2-column configuration, plus out-of-range calls left as identities. -/
theorem column_config_invariant_witness :
    widthInv (applyOps (ColumnConfig.new 2)
      [ColOp.adjust 0 (-500) 10, ColOp.hideCol 1, ColOp.swapDisp 0 1,
        ColOp.resetCfg, ColOp.adjust 1 500 3]) = true ∧
    (ColumnConfig.new 2).adjust_width 5 3 10 = ColumnConfig.new 2 ∧
    (ColumnConfig.new 2).hide 5 = ColumnConfig.new 2 ∧
    (ColumnConfig.new 2).swap_display 0 9 = ColumnConfig.new 2 :=
  ⟨column_config_invariant.1 2 _,
    column_config_invariant.2.1 _ 5 3 10 (by decide),
    column_config_invariant.2.2.1 _ 5 (by decide),
    column_config_invariant.2.2.2 _ 0 9 (Or.inr (by decide))⟩

/-!  # Invalid header handling (C9)  -/

theorem header_none_of_invalid (L : List Str) (h : hasValidPair L = false) :
    parse_psql_header L = none := by
  unfold parse_psql_header
  unfold hasValidPair at h
  by_cases hL : L = []
  · simp [hL]
  · simp only [hL, if_false]
    cases hfe : firstNonEmpty 0 L with
    | none => rfl
    | some p =>
      obtain ⟨i, l⟩ := p
      dsimp only at h ⊢
      split_ifs at h ⊢ <;> simp_all

theorem parse_none_of_invalid (input : Str) (h : hasValidPair (rustLines input) = false) :
    parse_psql input = none := by
  unfold parse_psql
  unfold hasValidPair at h
  by_cases hL : rustLines input = []
  · simp [hL]
  · simp only [hL, if_false]
    cases hfe : firstNonEmpty 0 (rustLines input) with
    | none => rfl
    | some p =>
      obtain ⟨i, l⟩ := p
      dsimp only at h ⊢
      split_ifs at h ⊢ <;> simp_all

/-- C9: whenever the lines a parse-start operation examines contain no valid
header/separator pair, `parse_psql_header` and `parse_psql` return `None`
and the streaming start returns its "not this format" `None` (the bounded
lookahead of `from_stdin` being its first 20 lines) — in particular for
empty input, whitespace-only input, and a header with no separator line. -/
theorem invalid_start_returns_none (lines allLines : List Str) (input : Str)
    (h1 : hasValidPair lines = false)
    (h2 : hasValidPair (rustLines input) = false)
    (h3 : hasValidPair (allLines.take 20) = false) :
    parse_psql_header lines = none ∧ parse_psql input = none ∧
    from_stdin_start allLines = none := by
  refine ⟨header_none_of_invalid lines h1, parse_none_of_invalid input h2, ?_⟩
  unfold from_stdin_start
  rw [header_none_of_invalid _ h3]
  rfl

/-- Witness for `invalid_start_returns_none`: the empty line list, a
whitespace-only input, and a stream whose header line is followed by a data
line instead of a separator. -/
theorem invalid_start_returns_none_witness :
    parse_psql_header [] = none ∧ parse_psql (("   \n  \n  ").toList) = none ∧
    from_stdin_start [("a|b").toList, ("1|2").toList] = none :=
  invalid_start_returns_none [] [("a|b").toList, ("1|2").toList] (("   \n  \n  ").toList)
    (by decide) (by decide) (by decide)

/-!  # TableData::clone (C8)  -/

/-- `Ext a b`: interner `b` extends interner `a` at the back, so handles into
`a` keep their meaning. -/
def Ext (a b : List Str) : Prop := ∃ rest, b = a ++ rest

theorem Ext.refl (a : List Str) : Ext a a := ⟨[], by simp⟩

theorem Ext.trans {a b c : List Str} (h1 : Ext a b) (h2 : Ext b c) : Ext a c := by
  obtain ⟨r1, rfl⟩ := h1
  obtain ⟨r2, rfl⟩ := h2
  exact ⟨r1 ++ r2, by simp⟩

theorem Ext.length_le {a b : List Str} (h : Ext a b) : a.length ≤ b.length := by
  obtain ⟨r, rfl⟩ := h
  simp

theorem Ext.resolve_eq {a b : List Str} (h : Ext a b) {n : Nat} (hn : n < a.length) :
    resolve b n = resolve a n := by
  obtain ⟨r, rfl⟩ := h
  simp only [resolve]
  rw [List.getD_eq_getD_get?, List.getD_eq_getD_get?, List.get?_append hn]

theorem gi_ext (tbl : List Str) (s : Str) : Ext tbl (get_or_intern tbl s).1 := by
  rcases gi_fst_cases tbl s with h | h
  · rw [h]; exact Ext.refl tbl
  · exact ⟨[s], h⟩

theorem map_resolve_ext {t t' : List Str} (h : Ext t t') :
    ∀ hs : List Nat, (∀ x ∈ hs, x < t.length) → hs.map (resolve t') = hs.map (resolve t) := by
  intro hs
  induction hs with
  | nil => intro _; rfl
  | cons x xs ih =>
    intro hlt
    simp only [List.map_cons]
    rw [h.resolve_eq (hlt x (by simp)), ih (fun y hy => hlt y (by simp [hy]))]

theorem internRow_ext (orig intr : List Str) (row : List Nat) :
    Ext intr (internRow orig intr row).1 := by
  induction row generalizing intr with
  | nil => exact Ext.refl intr
  | cons c cs ih =>
    simp only [internRow]
    exact (gi_ext intr (resolve orig c)).trans (ih _)

theorem internRow_handles_lt (orig intr : List Str) (row : List Nat) :
    ∀ x ∈ (internRow orig intr row).2, x < (internRow orig intr row).1.length := by
  induction row generalizing intr with
  | nil => simp [internRow]
  | cons c cs ih =>
    simp only [internRow, List.mem_cons]
    rintro x (rfl | hx)
    · exact Nat.lt_of_lt_of_le (gi_lt intr (resolve orig c))
        (internRow_ext orig _ cs).length_le
    · exact ih _ x hx

theorem internRow_resolve (orig intr : List Str) (row : List Nat) :
    (internRow orig intr row).2.map (resolve (internRow orig intr row).1)
      = row.map (resolve orig) := by
  induction row generalizing intr with
  | nil => rfl
  | cons c cs ih =>
    simp only [internRow, List.map_cons, List.map, List.cons.injEq]
    constructor
    · rw [(internRow_ext orig _ cs).resolve_eq (gi_lt intr (resolve orig c))]
      exact gi_resolve intr (resolve orig c)
    · exact ih _

theorem internRow_mem (orig intr : List Str) (row : List Nat) (x : Str) :
    x ∈ (internRow orig intr row).1 ↔ x ∈ intr ∨ ∃ c ∈ row, resolve orig c = x := by
  induction row generalizing intr with
  | nil => simp [internRow]
  | cons c cs ih =>
    simp only [internRow]
    rw [ih]
    rw [gi_mem]
    constructor
    · rintro ((hx | rfl) | ⟨c', hc', rfl⟩)
      · exact Or.inl hx
      · exact Or.inr ⟨c, by simp⟩
      · exact Or.inr ⟨c', by simp [hc']⟩
    · rintro (hx | ⟨c', hc', rfl⟩)
      · exact Or.inl (Or.inl hx)
      · rcases List.mem_cons.mp hc' with rfl | hc'
        · exact Or.inl (Or.inr rfl)
        · exact Or.inr ⟨c', hc', rfl⟩

theorem internRowList_ext (orig intr : List Str) (rows : List (List Nat)) :
    Ext intr (internRowList orig intr rows).1 := by
  induction rows generalizing intr with
  | nil => exact Ext.refl intr
  | cons r rs ih =>
    simp only [internRowList]
    exact (internRow_ext orig intr r).trans (ih _)

theorem internRowList_handles_lt (orig intr : List Str) (rows : List (List Nat)) :
    ∀ r ∈ (internRowList orig intr rows).2, ∀ x ∈ r,
      x < (internRowList orig intr rows).1.length := by
  induction rows generalizing intr with
  | nil => simp [internRowList]
  | cons r rs ih =>
    simp only [internRowList, List.mem_cons]
    rintro r' (rfl | hr') x hx
    · exact Nat.lt_of_lt_of_le (internRow_handles_lt orig intr r x hx)
        (internRowList_ext orig _ rs).length_le
    · exact ih _ r' hr' x hx

theorem internRowList_resolve (orig intr : List Str) (rows : List (List Nat)) :
    (internRowList orig intr rows).2.map
        (fun r => r.map (resolve (internRowList orig intr rows).1))
      = rows.map (fun r => r.map (resolve orig)) := by
  induction rows generalizing intr with
  | nil => rfl
  | cons r rs ih =>
    simp only [internRowList, List.map_cons, List.map, List.cons.injEq]
    constructor
    · rw [map_resolve_ext (internRowList_ext orig _ rs) _
        (internRow_handles_lt orig intr r)]
      exact internRow_resolve orig intr r
    · exact ih _

theorem internRowList_mem (orig intr : List Str) (rows : List (List Nat)) (x : Str) :
    x ∈ (internRowList orig intr rows).1
      ↔ x ∈ intr ∨ ∃ r ∈ rows, ∃ c ∈ r, resolve orig c = x := by
  induction rows generalizing intr with
  | nil => simp [internRowList]
  | cons r rs ih =>
    simp only [internRowList]
    rw [ih, internRow_mem]
    constructor
    · rintro ((hx | ⟨c, hc, rfl⟩) | ⟨r', hr', c, hc, rfl⟩)
      · exact Or.inl hx
      · exact Or.inr ⟨r, by simp, c, hc, rfl⟩
      · exact Or.inr ⟨r', by simp [hr'], c, hc, rfl⟩
    · rintro (hx | ⟨r', hr', c, hc, rfl⟩)
      · exact Or.inl (Or.inl hx)
      · rcases List.mem_cons.mp hr' with rfl | hr'
        · exact Or.inl (Or.inr ⟨c, hc, rfl⟩)
        · exact Or.inr ⟨r', hr', c, hc, rfl⟩

/-- C8: `clone()` keeps the headers, re-resolves every cell to the very same
string through the clone's own fresh interner, produces only handles that are
valid in that interner, and that interner holds exactly the strings the
original rows reference. -/
theorem clone_rebuilds_interner (t : TD) :
    (cloneTD t).headers = t.headers ∧
    (cloneTD t).rows.map (fun r => r.map (resolve (cloneTD t).interner))
      = t.rows.map (fun r => r.map (resolve t.interner)) ∧
    (∀ r ∈ (cloneTD t).rows, ∀ x ∈ r, x < (cloneTD t).interner.length) ∧
    (∀ s, s ∈ (cloneTD t).interner ↔ ∃ r ∈ t.rows, ∃ c ∈ r, resolve t.interner c = s) := by
  refine ⟨rfl, internRowList_resolve t.interner [] t.rows,
    internRowList_handles_lt t.interner [] t.rows, fun s => ?_⟩
  rw [show (cloneTD t).interner = (internRowList t.interner [] t.rows).1 from rfl,
    internRowList_mem]
  simp

/-- A table whose interner holds an entry (`w`) its rows never reference. -/
def sampleTD : TD := ⟨[['h']], [[0, 1], [1]], [['u'], ['v'], ['w']]⟩

/-- Witness for `clone_rebuilds_interner` at `sampleTD`. -/
theorem clone_rebuilds_interner_witness :
    (cloneTD sampleTD).headers = sampleTD.headers ∧
    (cloneTD sampleTD).rows.map (fun r => r.map (resolve (cloneTD sampleTD).interner))
      = sampleTD.rows.map (fun r => r.map (resolve sampleTD.interner)) ∧
    (∀ r ∈ (cloneTD sampleTD).rows, ∀ x ∈ r, x < (cloneTD sampleTD).interner.length) ∧
    (∀ s, s ∈ (cloneTD sampleTD).interner
      ↔ ∃ r ∈ sampleTD.rows, ∃ c ∈ r, resolve sampleTD.interner c = s) :=
  clone_rebuilds_interner sampleTD

end PTE

